import Mathlib

/-!
Verification of the screencrash-core orchestration core against its
natural-language specification.

The development shallowly embeds the relevant Python sources:
  * src/opus.py        — data model, action compilation, validate_references
  * src/performance.py — the Performance state machine
  * src/main.py        — Core._run_action dispatch
  * src/peers/component.py and src/peers/internal.py — the peer registry

Python dicts are modelled as association lists (insertion order, unique
keys); bytes as List Nat; exceptions as Option/Except or, where the Python
exception simply leaves the mutable state untouched and propagates, as the
unchanged state with no emitted events.
-/

namespace Screencrash

/-- Lookup in an association list, mirroring Python dict access (first
matching key; dicts have unique keys so first = only). -/
def alistLookup {α : Type} (m : List (String × α)) (k : String) : Option α :=
  match m with
  | [] => none
  | (k2, v) :: rest => if k2 = k then some v else alistLookup rest k

/-! ## Data model (src/opus.py dataclasses) -/

/-- Asset dataclass: path, optional raw bytes, optional checksum, targets. -/
structure Asset where
  path : String
  data : Option (List Nat)
  checksum : Option String
  targets : List String
deriving DecidableEq

/-- NodeChoice dataclass: one choice of node when the opus branches. -/
structure NodeChoice where
  node : String
  description : String
  actions : List String
deriving DecidableEq

/-- The next field of a Node: Optional[Union[str, List[NodeChoice]]]. -/
inductive NodeNext where
  | single (id : String)
  | choiceList (cs : List NodeChoice)
  | noneNext
deriving DecidableEq

/-- Node dataclass: a single location in the script. -/
structure Node where
  next : NodeNext
  prompt : String
  pdfPage : Int
  pdfLocationOnPage : Float
  actions : List String
  lineNumber : Option Int

/-- ActionTemplate dataclass: a command triggered by a node. Param values
are opaque scalars for the purposes of dispatch, modelled as strings. -/
inductive ActionTemplate where
  | mk (id : String) (target : String) (cmd : String) (desc : Option String)
       (assets : List String) (params : List (String × String))
       (subactions : List ActionTemplate)

def ActionTemplate.id : ActionTemplate → String
  | .mk i _ _ _ _ _ _ => i

def ActionTemplate.target : ActionTemplate → String
  | .mk _ t _ _ _ _ _ => t

def ActionTemplate.cmd : ActionTemplate → String
  | .mk _ _ c _ _ _ _ => c

def ActionTemplate.assets : ActionTemplate → List String
  | .mk _ _ _ _ a _ _ => a

def ActionTemplate.subactions : ActionTemplate → List ActionTemplate
  | .mk _ _ _ _ _ _ s => s

/-- UIShortcut dataclass. The actions field is annotated
List[ActionTemplate] in the source but load_ui_config stores action ID
strings in it, and validate_references consumes it as strings. -/
structure UIShortcut where
  title : String
  actions : List String
  hotkey : Option String
deriving DecidableEq

/-- UIConfig dataclass. -/
structure UIConfig where
  shortcuts : List UIShortcut
deriving DecidableEq

/-- One parameter-match rule of an event trigger. The type itself is
absent from the snapshot; its fields (name, expression, inverted) are
exactly those read by Performance._matches_event_trigger. -/
structure EventTriggerParam where
  name : String
  expression : String
  inverted : Bool
deriving DecidableEq

/-- An event trigger, as consumed by Performance.on_component_event:
fields target, event, params and actions are those read by the source. -/
structure EventTrigger where
  target : String
  event : String
  params : List EventTriggerParam
  actions : List String
deriving DecidableEq

/-- Opus dataclass. The event_triggers field is read by
Performance.__init__ (opus.event_triggers) though the dataclass in the
snapshot does not declare it; it is included here as the list consumed by
the Performance engine. -/
structure Opus where
  nodes : List (String × Node)
  action_templates : List (String × ActionTemplate)
  assets : List (String × Asset)
  ui_config : UIConfig
  start_node : String
  script : List Nat
  event_triggers : List EventTrigger

/-! ## Performance engine (src/performance.py) -/

/-- An event emitted by the Performance engine: either a run-action
request carrying an action ID, or a history-changed notification carrying
the new history. -/
inductive PerfEvent where
  | runAction (actionId : String)
  | historyChanged (history : List String)
deriving DecidableEq

/-- Performance state: the node table and trigger list captured from the
opus at construction, plus the mutable history. -/
structure Performance where
  nodes : List (String × Node)
  event_triggers : List EventTrigger
  history : List String

/-- Performance.__init__: history starts as the one-element list
containing the start node. -/
def Performance.init (opus : Opus) : Performance :=
  { nodes := opus.nodes
    event_triggers := opus.event_triggers
    history := [opus.start_node] }

/-- Performance.next_node. A missing current node raises in Python before
any mutation or emit, so those cases are the unchanged state with no
events. At a choice (or absent) next, only a diagnostic is printed. -/
def Performance.next_node (p : Performance) (run_actions : Bool) :
    Performance × List PerfEvent :=
  match p.history.getLast? with
  | none => (p, [])
  | some cur =>
    match alistLookup p.nodes cur with
    | none => (p, [])
    | some node =>
      match node.next with
      | NodeNext.single next_id =>
          let actionEvents :=
            if run_actions then node.actions.map PerfEvent.runAction else []
          let newHistory := p.history ++ [next_id]
          ({ p with history := newHistory },
           actionEvents ++ [PerfEvent.historyChanged newHistory])
      | _ => (p, [])

/-- Performance.prev_node: pops the last entry if history has more than
one element, otherwise only a diagnostic. -/
def Performance.prev_node (p : Performance) : Performance × List PerfEvent :=
  if 1 < p.history.length then
    let newHistory := p.history.dropLast
    ({ p with history := newHistory },
     [PerfEvent.historyChanged newHistory])
  else (p, [])

/-- Performance.run_actions: emits one run-action per current-node action
in list order, without mutating history. -/
def Performance.run_actions (p : Performance) : List PerfEvent :=
  match p.history.getLast? with
  | none => []
  | some cur =>
    match alistLookup p.nodes cur with
    | none => []
    | some node => node.actions.map PerfEvent.runAction

/-- Performance.choose_path. The index is a Python int (may be negative).
At a linear node, or with an out-of-range index, only a diagnostic is
printed; with next absent the length test raises before any mutation. -/
def Performance.choose_path (p : Performance) (choice_index : Int)
    (run_actions : Bool) : Performance × List PerfEvent :=
  match p.history.getLast? with
  | none => (p, [])
  | some cur =>
    match alistLookup p.nodes cur with
    | none => (p, [])
    | some node =>
      match node.next with
      | NodeNext.single _ => (p, [])
      | NodeNext.noneNext => (p, [])
      | NodeNext.choiceList cs =>
        if (cs.length : Int) ≤ choice_index ∨ choice_index < 0 then (p, [])
        else
          match cs.get? choice_index.toNat with
          | none => (p, [])
          | some choice =>
            let actionEvents :=
              if run_actions then
                node.actions.map PerfEvent.runAction
                ++ choice.actions.map PerfEvent.runAction
              else []
            let newHistory := p.history ++ [choice.node]
            ({ p with history := newHistory },
             actionEvents ++ [PerfEvent.historyChanged newHistory])

/-- Modelled from the spec: Performance.goto_node is wired up by
Core._setup_events in src/main.py but its definition is absent from the
snapshot of src/performance.py. Per the spec it appends an arbitrary
existing node ID to history (validated against the node table) and emits
history-changed; an unknown ID is rejected with history unchanged. -/
def Performance.goto_node (p : Performance) (node_id : String) :
    Performance × List PerfEvent :=
  match alistLookup p.nodes node_id with
  | some _ =>
      let newHistory := p.history ++ [node_id]
      ({ p with history := newHistory },
       [PerfEvent.historyChanged newHistory])
  | none => (p, [])

/-- Performance._matches_event_string: the pattern "any" matches any
non-absent value (values here are always present strings); a pattern
containing a pipe matches any of the alternatives; otherwise equality. -/
def matchesEventString (expected_value : String) (value : String) : Bool :=
  if expected_value = "any" then true
  else if 1 < (expected_value.splitOn "|").length then
    (expected_value.splitOn "|").contains value
  else value = expected_value

/-- The parameter-rule loop of Performance._matches_event_trigger: a rule
whose name is absent from params returns False; otherwise the string match
result must equal (not inverted). -/
def matchesTriggerParams (params : List (String × String)) :
    List EventTriggerParam → Bool
  | [] => true
  | rule :: rest =>
    match alistLookup params rule.name with
    | none => false
    | some v =>
      let expected_result := if rule.inverted then false else true
      if (matchesEventString rule.expression v) ≠ expected_result then false
      else matchesTriggerParams params rest

/-- Performance._matches_event_trigger. -/
def matchesEventTrigger (t : EventTrigger) (component_type : String)
    (event : String) (params : List (String × String)) : Bool :=
  if t.target ≠ component_type then false
  else if ¬ matchesEventString t.event event then false
  else matchesTriggerParams params t.params

/-- Performance.on_component_event: fires the actions of every matching
trigger, in trigger order. -/
def Performance.on_component_event (p : Performance) (component_type : String)
    (event : String) (params : List (String × String)) : List PerfEvent :=
  p.event_triggers.flatMap (fun t =>
    if matchesEventTrigger t component_type event params then
      t.actions.map PerfEvent.runAction
    else [])

/-! ## validate_references (src/opus.py) -/

/-- One reported block of validation output: a missing-or-orphaned list
for one of the three reference checks, or the illegal-hotkey report. -/
inductive Finding where
  | nonexistentNodes (ids : List String)
  | unreferredNodes (ids : List String)
  | nonexistentAssets (ids : List String)
  | unreferredAssets (ids : List String)
  | nonexistentActions (ids : List String)
  | unreferredActions (ids : List String)
  | illegalHotkeys (entries : List String)
deriving DecidableEq

/-- Python set equality of the two reference collections. -/
def setEqList (a b : List String) : Bool :=
  decide (∀ x ∈ a, x ∈ b) && decide (∀ x ∈ b, x ∈ a)

/-- Python set difference of the two reference collections. -/
def setDiff (a b : List String) : List String :=
  a.dedup.filter (fun x => decide (x ∉ b))

/-- The successor node IDs contributed by one node: its single next ID, or
the target of every choice. -/
def nodeSuccessors (node : Node) : List String :=
  match node.next with
  | NodeNext.single id2 => [id2]
  | NodeNext.choiceList cs => cs.map (fun c => c.node)
  | NodeNext.noneNext => []

/-- referred_nodes: the start node plus every next/choice target. -/
def referredNodes (o : Opus) : List String :=
  o.start_node :: o.nodes.flatMap (fun kv => nodeSuccessors kv.2)

/-- actual_nodes: the declared node table keys. -/
def declaredNodes (o : Opus) : List String :=
  o.nodes.map (fun kv => kv.1)

/-- The shared report shape of the three reference checks: nothing when
the sets agree, otherwise the nonexistent and the unreferred entries,
each reported only when nonempty. -/
def mismatchFindings (referred actual : List String)
    (mkMissing mkOrphan : List String → Finding) : List Finding :=
  if setEqList referred actual then []
  else
    let nonexistent := setDiff referred actual
    let unreferred := setDiff actual referred
    (if nonexistent ≠ [] then [mkMissing nonexistent] else [])
    ++ (if unreferred ≠ [] then [mkOrphan unreferred] else [])

/-- The node check of validate_references. -/
def nodeFindings (o : Opus) : List Finding :=
  mismatchFindings (referredNodes o) (declaredNodes o)
    Finding.nonexistentNodes Finding.unreferredNodes

/-- referred_assets: the mandatory script asset plus every asset ID listed
by a top-level action template (subactions are not consulted here). -/
def referredAssets (o : Opus) : List String :=
  "script" :: o.action_templates.flatMap (fun kv => kv.2.assets)

def declaredAssets (o : Opus) : List String :=
  o.assets.map (fun kv => kv.1)

/-- The asset check of validate_references. -/
def assetFindings (o : Opus) : List Finding :=
  mismatchFindings (referredAssets o) (declaredAssets o)
    Finding.nonexistentAssets Finding.unreferredAssets

/-- update_referred_action: records the action ID and recurses into a
subaction only when that subaction independently exists in the action
table. -/
def collectReferredAction (templates : List (String × ActionTemplate)) :
    ActionTemplate → List String
  | ActionTemplate.mk i _ _ _ _ _ subs =>
    i :: subs.attach.flatMap (fun s =>
      if (alistLookup templates s.val.id).isSome then
        collectReferredAction templates s.val
      else [])
decreasing_by
  have := List.sizeOf_lt_of_mem s.property
  simp only [ActionTemplate.mk.sizeOf_spec]
  omega

/-- referred_actions: node actions (recursively expanded when resolvable,
recorded verbatim when dangling), choice actions, and UI shortcut
actions, in that source order. -/
def referredActions (o : Opus) : List String :=
  (o.nodes.flatMap (fun kv =>
    kv.2.actions.flatMap (fun name =>
      match alistLookup o.action_templates name with
      | some a => collectReferredAction o.action_templates a
      | none => [name])
    ++ (match kv.2.next with
        | NodeNext.choiceList cs => cs.flatMap (fun c => c.actions)
        | _ => [])))
  ++ o.ui_config.shortcuts.flatMap (fun s => s.actions)

def declaredActions (o : Opus) : List String :=
  o.action_templates.map (fun kv => kv.1)

/-- The action check of validate_references. -/
def actionFindings (o : Opus) : List Finding :=
  mismatchFindings (referredActions o) (declaredActions o)
    Finding.nonexistentActions Finding.unreferredActions

/-- DISALLOWED_HOTKEYS from validate_references. -/
def DISALLOWED_HOTKEYS : List String :=
  ["ctrl+t", "ctrl+n", "ctrl+w", "ctrl+r",
   "a", "s", " ", "Up", "ArrowUp", "Down", "ArrowDown", "Enter"]

/-- The used_disallowed_hotkeys entries, formatted as in the source. -/
def hotkeyEntries (o : Opus) : List String :=
  o.ui_config.shortcuts.flatMap (fun s =>
    match s.hotkey with
    | some k =>
      if DISALLOWED_HOTKEYS.contains k then
        ["  " ++ s.title ++ " (" ++ k ++ ")"]
      else []
    | none => [])

/-- The hotkey check of validate_references. -/
def hotkeyFindings (o : Opus) : List Finding :=
  if hotkeyEntries o ≠ [] then [Finding.illegalHotkeys (hotkeyEntries o)]
  else []

/-- validate_references: the four checks run in order; each failing check
prints its full report and, when exit_on_failure is set, exits the
process then and there, so later checks never run. The result is the
reported findings and whether the process exited. -/
def validateReferences (o : Opus) (exit_on_failure : Bool) :
    List Finding × Bool :=
  let f1 := nodeFindings o
  if !f1.isEmpty && exit_on_failure then (f1, true)
  else
    let f2 := assetFindings o
    if !f2.isEmpty && exit_on_failure then (f1 ++ f2, true)
    else
      let f3 := actionFindings o
      if !f3.isEmpty && exit_on_failure then (f1 ++ f2 ++ f3, true)
      else
        let f4 := hotkeyFindings o
        (f1 ++ f2 ++ f3 ++ f4, !f4.isEmpty && exit_on_failure)

/-! ## Reachability, following the claim wording (spec side of C1) -/

/-- Follows the claim wording, not the source: one breadth-first
expansion layer of the IDs reachable by next edges and choice targets. -/
def reachableFromAux (o : Opus) : Nat → List String → List String
  | 0, acc => acc
  | fuel+1, acc =>
    let labels := (acc.flatMap (fun k =>
      match alistLookup o.nodes k with
      | some node => nodeSuccessors node
      | none => [])).filter (fun x => decide (x ∉ acc))
    if labels.isEmpty then acc
    else reachableFromAux o fuel (acc ++ labels.dedup)

/-- Follows the claim wording, not the source: the set of node IDs
reachable from start_node by transitively following next edges and
choice targets. The fuel bounds the expansion depth and is large enough
to reach the fixpoint. -/
def reachableFrom (o : Opus) : List String :=
  reachableFromAux o (o.nodes.length + (referredNodes o).length)
    [o.start_node]

/-- Membership in an association list from a successful lookup. -/
theorem alistLookup_mem {α : Type} {m : List (String × α)} {k : String}
    {v : α} (h : alistLookup m k = some v) : (k, v) ∈ m := by
  induction m with
  | nil => simp [alistLookup] at h
  | cons kv rest ih =>
    obtain ⟨a, b⟩ := kv
    unfold alistLookup at h
    by_cases hk : a = k
    · rw [if_pos hk] at h
      subst hk
      injection h with h
      subst h
      exact List.mem_cons_self _ _
    · rw [if_neg hk] at h
      exact List.mem_cons_of_mem _ (ih h)

/-- Every successor of a node present in the table is a referred node. -/
theorem nodeSuccessors_subset_referred {o : Opus} {k : String} {node : Node}
    (h : alistLookup o.nodes k = some node) :
    ∀ x ∈ nodeSuccessors node, x ∈ referredNodes o := by
  intro x hx
  exact List.mem_cons_of_mem _
    (List.mem_flatMap.mpr ⟨(k, node), alistLookup_mem h, hx⟩)

/-- The breadth-first expansion never escapes the referred-node set. -/
theorem reachableFromAux_subset (o : Opus) (fuel : Nat) (acc : List String)
    (hacc : ∀ x ∈ acc, x ∈ referredNodes o) :
    ∀ x ∈ reachableFromAux o fuel acc, x ∈ referredNodes o := by
  induction fuel generalizing acc with
  | zero => simpa [reachableFromAux] using hacc
  | succ n ih =>
    intro x hx
    rw [reachableFromAux] at hx
    split at hx
    · exact hacc x hx
    · refine ih _ ?_ x hx
      intro y hy
      rcases List.mem_append.mp hy with hy | hy
      · exact hacc y hy
      · rcases List.mem_flatMap.mp (List.mem_filter.mp
          (List.mem_dedup.mp hy)).1 with ⟨k, hk, hyk⟩
        cases hnode : alistLookup o.nodes k with
        | none => rw [hnode] at hyk; cases hyk
        | some node =>
          rw [hnode] at hyk
          exact nodeSuccessors_subset_referred hnode y hyk

/-- A check that reports nothing certifies set equality of its referred
and actual collections. -/
theorem mismatchFindings_empty {referred actual : List String}
    {mk1 mk2 : List String → Finding}
    (h : mismatchFindings referred actual mk1 mk2 = []) :
    ∀ x, x ∈ referred ↔ x ∈ actual := by
  unfold mismatchFindings at h
  split at h
  · next hs =>
    have hs2 : (∀ x ∈ referred, x ∈ actual) ∧ (∀ x ∈ actual, x ∈ referred) := by
      simpa [setEqList] using hs
    intro x
    exact ⟨fun hx => hs2.1 x hx, fun hx => hs2.2 x hx⟩
  · next hs =>
    rcases List.append_eq_nil.mp h with ⟨hL, hR⟩
    have hne : setDiff referred actual = [] := by
      by_cases hc : setDiff referred actual ≠ []
      · rw [if_pos hc] at hL; cases hL
      · simpa using hc
    have hnu : setDiff actual referred = [] := by
      by_cases hc : setDiff actual referred ≠ []
      · rw [if_pos hc] at hR; cases hR
      · simpa using hc
    have mem_of_diff : ∀ {a b : List String}, setDiff a b = [] →
        ∀ x ∈ a, x ∈ b := by
      intro a b hd x hx
      have := List.filter_eq_nil_iff.mp hd x (List.mem_dedup.mpr hx)
      simpa using this
    intro x
    exact ⟨mem_of_diff hne x, mem_of_diff hnu x⟩

/-! ## Claims about validate_references -/

def c1nodeA : Node :=
  { next := NodeNext.single "A", prompt := "loop a", pdfPage := 0,
    pdfLocationOnPage := 0.0, actions := [], lineNumber := none }

def c1nodeB : Node :=
  { next := NodeNext.single "B", prompt := "loop b", pdfPage := 0,
    pdfLocationOnPage := 0.0, actions := [], lineNumber := none }

/-- An opus fully accepted by validate_references whose node B is not
reachable from start node A: both nodes refer only to themselves. -/
def c1Opus : Opus :=
  { nodes := [("A", c1nodeA), ("B", c1nodeB)],
    action_templates := [],
    assets := [("script",
      { path := "script.pdf", data := none, checksum := none, targets := [] })],
    ui_config := { shortcuts := [] },
    start_node := "A", script := [], event_triggers := [] }

/-- C1 counterexample: an Opus accepted by validate_references under the
fatal configuration (no findings, no exit) on which the set of node IDs
transitively reachable from start_node is a strict subset of the declared
node set: node B is declared but unreachable. -/
theorem reference_closure_counterexample :
    validateReferences c1Opus true = ([], false)
    ∧ "B" ∈ declaredNodes c1Opus
    ∧ "B" ∉ reachableFrom c1Opus := by
  refine ⟨rfl, by decide, by decide⟩

/-- C1 amended: when the node check of validate_references reports no
mismatch, the set consisting of start_node together with every next edge
and choice target equals the declared node set, and the set of node IDs
transitively reachable from start_node is contained in (but need not
equal) the declared node set. -/
theorem reference_closure (o : Opus) (h : nodeFindings o = []) :
    (∀ x, x ∈ referredNodes o ↔ x ∈ declaredNodes o)
    ∧ (∀ x ∈ reachableFrom o, x ∈ declaredNodes o) := by
  have hiff := mismatchFindings_empty h
  refine ⟨hiff, fun x hx => (hiff x).mp ?_⟩
  refine reachableFromAux_subset o _ _ ?_ x hx
  intro y hy
  have hys : y = o.start_node := by simpa using hy
  rw [hys, referredNodes]
  exact List.mem_cons_self _ _

/-- C1 witness: the amended closure evaluated on the concrete accepted
opus. -/
theorem reference_closure_witness :
    ("B" ∈ referredNodes c1Opus ↔ "B" ∈ declaredNodes c1Opus)
    ∧ ("A" ∈ reachableFrom c1Opus → "A" ∈ declaredNodes c1Opus) :=
  ⟨(reference_closure c1Opus rfl).1 "B",
   (reference_closure c1Opus rfl).2 "A"⟩

def c8Node : Node :=
  { next := NodeNext.single "X", prompt := "into the void", pdfPage := 0,
    pdfLocationOnPage := 0.0, actions := [], lineNumber := none }

/-- An opus with mismatches in two different checks: a dangling node
reference X and a missing script asset. -/
def c8Opus : Opus :=
  { nodes := [("A", c8Node)], action_templates := [], assets := [],
    ui_config := { shortcuts := [] }, start_node := "A", script := [],
    event_triggers := [] }

/-- C8 counterexample: with exit-on-failure enabled, validation exits at
the end of the failing node check, so the asset mismatch of the same
opus is never reported, refuting the claim that all mismatches of all
checks are reported under both settings. -/
theorem validate_full_report_counterexample :
    assetFindings c8Opus = [Finding.nonexistentAssets ["script"]]
    ∧ validateReferences c8Opus true = ([Finding.nonexistentNodes ["X"]], true) := by
  exact ⟨rfl, rfl⟩

/-- C8 amended: within each of the four checks every mismatch (missing
and orphaned) is reported in full, and with exit-on-failure disabled all
four checks run and their reports are all emitted; with it enabled,
validation exits at the first failing check and later checks go
unreported. -/
theorem validate_full_report (o : Opus) :
    validateReferences o false =
      (nodeFindings o ++ assetFindings o ++ actionFindings o
        ++ hotkeyFindings o, false)
    ∧ (nodeFindings o ≠ [] →
        validateReferences o true = (nodeFindings o, true)) := by
  constructor
  · simp [validateReferences]
  · intro h
    have hne : (nodeFindings o).isEmpty = false := by
      simpa [List.isEmpty_iff] using h
    simp [validateReferences, hne]

/-- C8 witness: the amended behavior evaluated on the concrete
mismatched opus. -/
theorem validate_full_report_witness :
    validateReferences c8Opus true = (nodeFindings c8Opus, true) :=
  (validate_full_report c8Opus).2 (by decide)

/-! ## Concrete fixtures used by witnesses -/

def nodeLinear : Node :=
  { next := NodeNext.single "n2", prompt := "line one", pdfPage := 0,
    pdfLocationOnPage := 0.0, actions := ["a1", "a2"], lineNumber := none }

def nodeBranch : Node :=
  { next := NodeNext.choiceList
      [{ node := "n3", description := "left", actions := ["c1"] },
       { node := "n4", description := "right", actions := [] }],
    prompt := "branch", pdfPage := 0, pdfLocationOnPage := 0.0,
    actions := ["a3"], lineNumber := none }

def nodeStop : Node :=
  { next := NodeNext.noneNext, prompt := "stop", pdfPage := 0,
    pdfLocationOnPage := 0.0, actions := [], lineNumber := none }

def perfNodes : List (String × Node) :=
  [("n1", nodeLinear), ("n2", nodeBranch), ("n3", nodeStop), ("n4", nodeStop)]

def opusX : Opus :=
  { nodes := perfNodes, action_templates := [], assets := [],
    ui_config := { shortcuts := [] }, start_node := "n1", script := [],
    event_triggers := [] }

def perfA : Performance := { nodes := perfNodes, event_triggers := [], history := ["n1"] }

def perfB : Performance := { nodes := perfNodes, event_triggers := [], history := ["n1", "n2"] }

/-! ## Claims about the Performance engine -/

/-- C2: the Performance history is never empty: it starts as the
one-element list [start_node]; next_node appends exactly one entry (the
single successor) when the current node is linear and leaves everything
unchanged at a choice point; prev_node removes exactly the last entry when
history has more than one element and is a no-op at length one, so it
never empties the history. -/
theorem history_invariants (opus : Opus) (p : Performance) (ra : Bool) :
    (Performance.init opus).history = [opus.start_node]
    ∧ (∀ cur node next_id, p.history.getLast? = some cur →
        alistLookup p.nodes cur = some node →
        node.next = NodeNext.single next_id →
        (p.next_node ra).1.history = p.history ++ [next_id])
    ∧ (∀ cur node cs, p.history.getLast? = some cur →
        alistLookup p.nodes cur = some node →
        node.next = NodeNext.choiceList cs →
        p.next_node ra = (p, []))
    ∧ (1 < p.history.length →
        p.prev_node = ({ p with history := p.history.dropLast },
                       [PerfEvent.historyChanged p.history.dropLast]))
    ∧ (p.history.length = 1 → p.prev_node = (p, []))
    ∧ (p.history ≠ [] → (p.prev_node).1.history ≠ []) := by
  refine ⟨rfl, ?_, ?_, ?_, ?_, ?_⟩
  · intro cur node next_id hcur hnode hnext
    simp [Performance.next_node, hcur, hnode, hnext]
  · intro cur node cs hcur hnode hnext
    simp [Performance.next_node, hcur, hnode, hnext]
  · intro hlen
    simp [Performance.prev_node, hlen]
  · intro hlen
    simp [Performance.prev_node, hlen]
  · intro hne
    unfold Performance.prev_node
    split
    · next h =>
      have hpos : 0 < p.history.dropLast.length := by
        rw [List.length_dropLast]; omega
      exact List.length_pos.mp hpos
    · exact hne

/-- C2 witness: the invariants evaluated on a concrete performance. -/
theorem history_invariants_witness :
    (perfA.next_node true).1.history = perfA.history ++ ["n2"]
    ∧ perfB.prev_node = ({ perfB with history := perfB.history.dropLast },
                         [PerfEvent.historyChanged perfB.history.dropLast])
    ∧ perfA.prev_node = (perfA, []) :=
  ⟨(history_invariants opusX perfA true).2.1 "n1" nodeLinear "n2" rfl rfl rfl,
   (history_invariants opusX perfB true).2.2.2.1 (by decide),
   (history_invariants opusX perfA true).2.2.2.2.1 (by decide)⟩

/-- C3: choose_path appends a node to history only at a choice point with
an in-range index; out-of-range indices and calls at a linear node leave
history unchanged. On success with run_actions true it emits one
run-action per current-node action in list order, then one per chosen
NodeChoice action in list order, then appends the chosen node and emits
history-changed. -/
theorem choose_path_spec (p : Performance) (i : Int) (ra : Bool) :
    (∀ cur node cs choice, p.history.getLast? = some cur →
        alistLookup p.nodes cur = some node →
        node.next = NodeNext.choiceList cs →
        0 ≤ i → i < (cs.length : Int) →
        cs.get? i.toNat = some choice →
        (p.choose_path i ra).1.history = p.history ++ [choice.node]
        ∧ p.choose_path i true =
            ({ p with history := p.history ++ [choice.node] },
             node.actions.map PerfEvent.runAction
             ++ choice.actions.map PerfEvent.runAction
             ++ [PerfEvent.historyChanged (p.history ++ [choice.node])]))
    ∧ (∀ cur node cs, p.history.getLast? = some cur →
        alistLookup p.nodes cur = some node →
        node.next = NodeNext.choiceList cs →
        (i < 0 ∨ (cs.length : Int) ≤ i) →
        p.choose_path i ra = (p, []))
    ∧ (∀ cur node nid, p.history.getLast? = some cur →
        alistLookup p.nodes cur = some node →
        node.next = NodeNext.single nid →
        p.choose_path i ra = (p, [])) := by
  refine ⟨?_, ?_, ?_⟩
  · intro cur node cs choice hcur hnode hnext h0 hlt hget
    have hcond : ¬ ((cs.length : Int) ≤ i ∨ i < 0) := by omega
    rw [List.get?_eq_getElem?] at hget
    constructor
    · simp [Performance.choose_path, hcur, hnode, hnext, hcond, hget]
    · simp [Performance.choose_path, hcur, hnode, hnext, hcond, hget]
  · intro cur node cs hcur hnode hnext hbad
    have hcond : (cs.length : Int) ≤ i ∨ i < 0 := by omega
    simp [Performance.choose_path, hcur, hnode, hnext, hcond]
  · intro cur node nid hcur hnode hnext
    simp [Performance.choose_path, hcur, hnode, hnext]

/-- C3 witness: choosing index 0 at the branch node fires the node's
actions, then the choice's actions, then moves to the chosen node; an
out-of-range index and a call at a linear node are no-ops. -/
theorem choose_path_spec_witness :
    perfB.choose_path 0 true =
      ({ perfB with history := perfB.history ++ ["n3"] },
       [PerfEvent.runAction "a3"].append
       ([PerfEvent.runAction "c1"]
        ++ [PerfEvent.historyChanged (perfB.history ++ ["n3"])]))
    ∧ perfB.choose_path 5 true = (perfB, [])
    ∧ perfA.choose_path 0 true = (perfA, []) := by
  refine ⟨?_, ?_, ?_⟩
  · have h := ((choose_path_spec perfB 0 true).1 "n2" nodeBranch
      (match nodeBranch.next with | NodeNext.choiceList cs => cs | _ => [])
      { node := "n3", description := "left", actions := ["c1"] }
      rfl rfl rfl (by decide) (by decide) rfl).2
    simpa using h
  · exact (choose_path_spec perfB 5 true).2.1 "n2" nodeBranch
      (match nodeBranch.next with | NodeNext.choiceList cs => cs | _ => [])
      rfl rfl rfl (by decide)
  · exact (choose_path_spec perfA 0 true).2.2 "n1" nodeLinear "n2" rfl rfl rfl

/-- C7: goto_node appends an existing node ID to history and emits
history-changed; an ID absent from the node table is rejected with
history unchanged. The operation is modelled from the spec because only
its caller (Core._setup_events) appears in the snapshot. -/
theorem goto_node_spec (p : Performance) (nid : String) :
    (∀ node, alistLookup p.nodes nid = some node →
        p.goto_node nid =
          ({ p with history := p.history ++ [nid] },
           [PerfEvent.historyChanged (p.history ++ [nid])]))
    ∧ (alistLookup p.nodes nid = none → p.goto_node nid = (p, [])) := by
  constructor
  · intro node hnode
    simp [Performance.goto_node, hnode]
  · intro hnone
    simp [Performance.goto_node, hnone]

/-- C7 witness: jumping to a known node appends it; an unknown ID is a
no-op. -/
theorem goto_node_spec_witness :
    perfA.goto_node "n3" =
      ({ perfA with history := perfA.history ++ ["n3"] },
       [PerfEvent.historyChanged (perfA.history ++ ["n3"])])
    ∧ perfA.goto_node "missing" = (perfA, []) :=
  ⟨(goto_node_spec perfA "n3").1 nodeStop rfl,
   (goto_node_spec perfA "missing").2 rfl⟩

/-- Helper for C10: the parameter-rule loop returns false whenever some
rule's name is absent from the params map, whatever its inverted flag. -/
theorem matchesTriggerParams_absent (params : List (String × String))
    (rules : List EventTriggerParam) (rule : EventTriggerParam)
    (hmem : rule ∈ rules) (habs : alistLookup params rule.name = none) :
    matchesTriggerParams params rules = false := by
  induction rules with
  | nil => cases hmem
  | cons r rest ih =>
    rcases List.mem_cons.mp hmem with heq | htail
    · subst heq
      simp [matchesTriggerParams, habs]
    · unfold matchesTriggerParams
      cases hr : alistLookup params r.name with
      | none => simp
      | some v =>
        dsimp only
        by_cases hm : (matchesEventString r.expression v
            ≠ (if r.inverted then false else true))
        · rw [if_pos hm]
        · rw [if_neg hm]
          exact ih htail

/-- C10: a parameter-match rule whose name is absent from the event's
params map makes the whole trigger fail to match, regardless of the
inverted flag on the rule. -/
theorem trigger_absent_param_never_matches (t : EventTrigger)
    (rule : EventTriggerParam) (ct ev : String)
    (params : List (String × String))
    (hmem : rule ∈ t.params)
    (habs : alistLookup params rule.name = none) :
    matchesEventTrigger t ct ev params = false := by
  unfold matchesEventTrigger
  split
  · rfl
  · split
    · rfl
    · exact matchesTriggerParams_absent params t.params rule hmem habs

def trigX : EventTrigger :=
  { target := "audio", event := "done",
    params := [{ name := "k", expression := "v", inverted := true }],
    actions := ["a9"] }

/-- C10 witness: a trigger whose only rule is inverted does not match an
event lacking that parameter, even though the target and event match. -/
theorem trigger_absent_param_never_matches_witness :
    matchesEventTrigger trigX "audio" "done" [] = false :=
  trigger_absent_param_never_matches trigX
    { name := "k", expression := "v", inverted := true }
    "audio" "done" [] (by decide) rfl

/-! ## Core._run_action dispatch (src/main.py) -/

/-- The observable behavior of one registry entry in Core._components:
which targets it serves, its live instance count, and whether its
handle_action completes or raises for a given target and command. -/
structure PeerModel where
  handlesTarget : String → Bool
  nofInstances : Nat
  handleOk : String → String → Bool

/-- One observable step of the dispatch: a peer receiving handle_action,
or the unhandled warning for an action. -/
inductive DispatchEvent where
  | delivered (peer : Nat) (target : String) (cmd : String)
  | warningUnhandled (actionId : String)
deriving DecidableEq

/-- The per-peer loop of Core._run_action, indexed from i: every peer
that handles the target and has at least one instance receives
handle_action (an exception is caught per peer), and the handled flag is
the disjunction of the successful completions. -/
def dispatchAux (target cmd : String) : Nat → List PeerModel →
    List DispatchEvent × Bool
  | _, [] => ([], false)
  | i, p :: rest =>
    let r := dispatchAux target cmd (i+1) rest
    if p.handlesTarget target && decide (0 < p.nofInstances) then
      (DispatchEvent.delivered i target cmd :: r.1,
       p.handleOk target cmd || r.2)
    else r

/-- The dispatch loop of Core._run_action over the peer table. -/
def dispatchToPeers (peers : List PeerModel) (target cmd : String) :
    List DispatchEvent × Bool :=
  dispatchAux target cmd 0 peers

mutual

/-- Whether every asset key referenced by the action tree exists, the
precondition for the list comprehension over opus.assets not to raise. -/
def allAssetsPresent (assetKeys : List String) : ActionTemplate → Bool
  | ActionTemplate.mk _ _ _ _ as _ subs =>
    as.all (fun k => assetKeys.contains k)
    && allAssetsPresentList assetKeys subs

def allAssetsPresentList (assetKeys : List String) :
    List ActionTemplate → Bool
  | [] => true
  | a :: rest =>
    allAssetsPresent assetKeys a && allAssetsPresentList assetKeys rest

end

mutual

/-- Core._run_action: resolve the assets (a KeyError aborts the whole
call, second component false), dispatch to every matching peer, warn if
nobody handled it, then run every subaction. -/
def runAction (assetKeys : List String) (peers : List PeerModel) :
    ActionTemplate → List DispatchEvent × Bool
  | ActionTemplate.mk i t c _ as _ subs =>
    if as.all (fun k => assetKeys.contains k) then
      let d := dispatchToPeers peers t c
      let top := d.1 ++ (if d.2 then [] else [DispatchEvent.warningUnhandled i])
      let r := runActionList assetKeys peers subs
      (top ++ r.1, r.2)
    else ([], false)

def runActionList (assetKeys : List String) (peers : List PeerModel) :
    List ActionTemplate → List DispatchEvent × Bool
  | [] => ([], true)
  | a :: rest =>
    let r := runAction assetKeys peers a
    if r.2 then
      let rr := runActionList assetKeys peers rest
      (r.1 ++ rr.1, rr.2)
    else (r.1, false)

end

/-- The indices (from i) of the peers eligible for a target: those whose
category handles it and which have at least one live instance. This is
the claim-side delivery specification and does not consult handleOk. -/
def eligibleIdx (target : String) : Nat → List PeerModel → List Nat
  | _, [] => []
  | i, p :: rest =>
    if p.handlesTarget target && decide (0 < p.nofInstances) then
      i :: eligibleIdx target (i+1) rest
    else eligibleIdx target (i+1) rest

mutual

/-- Claim-side delivery specification: for the action and then each
subaction in pre-order, one delivery per eligible peer in peer order,
independent of which handlers raise. -/
def deliveredSpec (peers : List PeerModel) : ActionTemplate → List DispatchEvent
  | ActionTemplate.mk _ t c _ _ _ subs =>
    (eligibleIdx t 0 peers).map (fun j => DispatchEvent.delivered j t c)
    ++ deliveredSpecList peers subs

def deliveredSpecList (peers : List PeerModel) :
    List ActionTemplate → List DispatchEvent
  | [] => []
  | a :: rest => deliveredSpec peers a ++ deliveredSpecList peers rest

end

/-- Projection to the delivery events of a trace. -/
def deliveredOf (evs : List DispatchEvent) : List DispatchEvent :=
  evs.filter (fun e =>
    match e with
    | DispatchEvent.delivered _ _ _ => true
    | _ => false)

/-- The dispatch loop delivers to exactly the eligible peers, whatever
the handlers do. -/
theorem dispatchAux_delivers (target cmd : String) (peers : List PeerModel) :
    ∀ i, (dispatchAux target cmd i peers).1
      = (eligibleIdx target i peers).map
          (fun j => DispatchEvent.delivered j target cmd) := by
  induction peers with
  | nil => intro i; rfl
  | cons p rest ih =>
    intro i
    unfold dispatchAux eligibleIdx
    by_cases hp : (p.handlesTarget target && decide (0 < p.nofInstances)) = true
    · simp [hp, ih (i+1)]
    · simp [hp, ih (i+1)]

/-- The handled flag of the dispatch loop is true iff some eligible peer
completes without raising. -/
theorem dispatchAux_handled (target cmd : String) (peers : List PeerModel) :
    ∀ i, (dispatchAux target cmd i peers).2
      = peers.any (fun p => p.handlesTarget target
          && decide (0 < p.nofInstances) && p.handleOk target cmd) := by
  induction peers with
  | nil => intro i; rfl
  | cons p rest ih =>
    intro i
    unfold dispatchAux
    by_cases hp : (p.handlesTarget target && decide (0 < p.nofInstances)) = true
    · have h12 := Bool.and_eq_true_iff.mp hp
      simp [hp, ih (i+1), h12.1, h12.2]
    · have hfalse : (p.handlesTarget target
          && decide (0 < p.nofInstances)) = false := by
        revert hp
        cases p.handlesTarget target && decide (0 < p.nofInstances) <;> simp
      simp [hp, ih (i+1), hfalse]

/-- Filtering a pure-delivery list is the identity. -/
theorem deliveredOf_map_delivered (js : List Nat) (t c : String) :
    deliveredOf (js.map (fun j => DispatchEvent.delivered j t c))
      = js.map (fun j => DispatchEvent.delivered j t c) := by
  induction js with
  | nil => rfl
  | cons j rest ih => simp [deliveredOf] at ih ⊢

/-- Filtering distributes over appends of traces. -/
theorem deliveredOf_append (a b : List DispatchEvent) :
    deliveredOf (a ++ b) = deliveredOf a ++ deliveredOf b :=
  List.filter_append a b

/-- The optional unhandled warning contributes no delivery. -/
theorem deliveredOf_warn (b : Bool) (i : String) :
    deliveredOf (if b then [] else [DispatchEvent.warningUnhandled i]) = [] := by
  cases b <;> rfl

/-- Simultaneous induction for runAction and runActionList: with every
referenced asset present, execution completes, and the delivered events
are exactly the claim-side delivery specification. -/
theorem run_action_aux (assetKeys : List String) (peers : List PeerModel) :
    ∀ n : Nat,
      (∀ a : ActionTemplate, sizeOf a ≤ n →
        allAssetsPresent assetKeys a = true →
        (runAction assetKeys peers a).2 = true
        ∧ deliveredOf (runAction assetKeys peers a).1 = deliveredSpec peers a)
      ∧ (∀ l : List ActionTemplate, sizeOf l ≤ n →
        allAssetsPresentList assetKeys l = true →
        (runActionList assetKeys peers l).2 = true
        ∧ deliveredOf (runActionList assetKeys peers l).1
            = deliveredSpecList peers l) := by
  intro n
  induction n with
  | zero =>
    constructor
    · intro a hsize
      exfalso
      cases a with
      | mk i t c d as ps subs =>
        have := ActionTemplate.mk.sizeOf_spec i t c d as ps subs
        omega
    · intro l hsize
      exfalso
      cases l with
      | nil => simp at hsize
      | cons a rest =>
        have := List.cons.sizeOf_spec a rest
        omega
  | succ n ih =>
    constructor
    · intro a hsize hok
      cases a with
      | mk i t c d as ps subs =>
        have hspec := ActionTemplate.mk.sizeOf_spec i t c d as ps subs
        have hsubs : sizeOf subs ≤ n := by omega
        unfold allAssetsPresent at hok
        have hok2 := Bool.and_eq_true_iff.mp hok
        obtain ⟨hsu2, hsu3⟩ := ih.2 subs hsubs hok2.2
        have hd := dispatchAux_delivers t c peers 0
        constructor
        · unfold runAction
          split
          · simpa using hsu2
          · next hneg => exact absurd hok2.1 hneg
        · unfold runAction
          split
          · rw [deliveredOf_append, deliveredOf_append, hsu3]
            unfold dispatchToPeers
            rw [hd, deliveredOf_map_delivered, deliveredOf_warn]
            unfold deliveredSpec
            simp
          · next hneg => exact absurd hok2.1 hneg
    · intro l hsize hall
      cases l with
      | nil => exact ⟨rfl, rfl⟩
      | cons a rest =>
        have hs := List.cons.sizeOf_spec a rest
        have ha : sizeOf a ≤ n := by omega
        have hr : sizeOf rest ≤ n := by omega
        unfold allAssetsPresentList at hall
        have hall2 := Bool.and_eq_true_iff.mp hall
        obtain ⟨ha1, ha2⟩ := ih.1 a ha hall2.1
        obtain ⟨hr1, hr2⟩ := ih.2 rest hr hall2.2
        constructor
        · simp [runActionList, ha1, hr1]
        · simp only [runActionList, ha1, if_true]
          rw [deliveredOf_append, ha2, hr2]
          simp [deliveredSpecList]

/-- C4: when _run_action dispatches, a raising handler is caught per
peer: execution completes, the deliveries are exactly one handle_action
invocation per eligible peer for the action and every subaction
(independent of which handlers raise, since deliveredSpec never consults
handleOk), and the action is marked handled iff at least one eligible
peer's handler completes without raising. -/
theorem broadcast_isolation (assetKeys : List String) (peers : List PeerModel)
    (a : ActionTemplate) (h : allAssetsPresent assetKeys a = true) :
    (runAction assetKeys peers a).2 = true
    ∧ deliveredOf (runAction assetKeys peers a).1 = deliveredSpec peers a
    ∧ (dispatchToPeers peers a.target a.cmd).2
        = peers.any (fun p => p.handlesTarget a.target
            && decide (0 < p.nofInstances) && p.handleOk a.target a.cmd) := by
  obtain ⟨h1, h2⟩ := (run_action_aux assetKeys peers (sizeOf a)).1 a (le_refl _) h
  exact ⟨h1, h2, dispatchAux_handled a.target a.cmd peers 0⟩

def peerRaises : PeerModel :=
  { handlesTarget := fun t => t == "audio", nofInstances := 1,
    handleOk := fun _ _ => false }

def peerWorks : PeerModel :=
  { handlesTarget := fun t => t == "audio", nofInstances := 1,
    handleOk := fun _ _ => true }

def peerOther : PeerModel :=
  { handlesTarget := fun t => t == "video", nofInstances := 1,
    handleOk := fun _ _ => true }

def c4peers : List PeerModel := [peerRaises, peerWorks, peerOther]

def c4sub : ActionTemplate :=
  ActionTemplate.mk "sub1" "audio" "stop" none [] [] []

def c4action : ActionTemplate :=
  ActionTemplate.mk "act0" "audio" "play" none [] [] [c4sub]

/-- C4 witness: two audio peers of which the first raises; dispatch of an
action with one subaction completes, delivers per the specification, and
is handled because the second peer succeeds. -/
theorem broadcast_isolation_witness :
    (runAction [] c4peers c4action).2 = true
    ∧ deliveredOf (runAction [] c4peers c4action).1 = deliveredSpec c4peers c4action
    ∧ (dispatchToPeers c4peers c4action.target c4action.cmd).2
        = c4peers.any (fun p => p.handlesTarget c4action.target
            && decide (0 < p.nofInstances)
            && p.handleOk c4action.target c4action.cmd) :=
  broadcast_isolation [] c4peers c4action
    (by simp [c4action, c4sub, allAssetsPresent, allAssetsPresentList])

/-! ## ComponentPeer registry (src/peers/component.py, internal.py) -/

/-- The registry state of one ComponentPeer: served target types, the
open websocket connections (handles), distributed assets and registered
component infos (componentId to socket handle). -/
structure ComponentPeerState where
  target_types : List String
  sync_assets : Bool
  websockets : List Nat
  assets : List Asset
  infos : List (String × Nat)
deriving DecidableEq

/-- ComponentPeer.nof_instances: the length of the websocket list. -/
def ComponentPeerState.nof_instances (s : ComponentPeerState) : Nat :=
  s.websockets.length

/-- InternalPeer.nof_instances: always 1, whatever the state. -/
def internalNofInstances (_s : ComponentPeerState) : Nat := 1

/-- The first statement of ComponentPeer.handle_socket: the accepted
connection is appended to the websocket list. -/
def acceptConnection (s : ComponentPeerState) (w : Nat) : ComponentPeerState :=
  { s with websockets := s.websockets ++ [w] }

/-- The last statement of ComponentPeer.handle_socket: on termination the
connection is removed (Python list.remove: first occurrence). -/
def endConnection (s : ComponentPeerState) (w : Nat) : ComponentPeerState :=
  { s with websockets := s.websockets.erase w }

/-- An InternalPeer state with no connection at all. -/
def internalEmpty : ComponentPeerState :=
  { target_types := ["internal"], sync_assets := true, websockets := [],
    assets := [], infos := [] }

/-- C9 counterexample: the InternalPeer registry instance (category
"internal") reports one instance while holding zero open connections,
refuting the claim for every registry instance. -/
theorem nof_instances_counterexample :
    internalNofInstances internalEmpty = 1
    ∧ internalEmpty.websockets.length = 0
    ∧ internalNofInstances internalEmpty ≠ internalEmpty.nof_instances :=
  ⟨rfl, rfl, by decide⟩

/-- C9 amended: for registries using the base ComponentPeer
implementation, nof_instances equals the number of open connections: 0
with none, incremented by an accepted connection, decremented when a
held connection terminates; the InternalPeer override instead reports 1
regardless of connections. -/
theorem nof_instances_counts (s : ComponentPeerState) (w : Nat) :
    (s.websockets = [] → s.nof_instances = 0)
    ∧ (acceptConnection s w).nof_instances = s.nof_instances + 1
    ∧ (w ∈ s.websockets →
        (endConnection s w).nof_instances = s.nof_instances - 1)
    ∧ internalNofInstances s = 1 := by
  refine ⟨?_, ?_, ?_, rfl⟩
  · intro h
    simp [ComponentPeerState.nof_instances, h]
  · simp [ComponentPeerState.nof_instances, acceptConnection]
  · intro hmem
    simp [ComponentPeerState.nof_instances, endConnection,
      List.length_erase_of_mem hmem]

/-- C9 witness: the count on a concrete registry with two connections:
empty-state zero, accept increments, termination decrements. -/
theorem nof_instances_counts_witness :
    ({ internalEmpty with websockets := [] } : ComponentPeerState).nof_instances = 0
    ∧ (acceptConnection { internalEmpty with websockets := [7] } 9).nof_instances
        = ({ internalEmpty with websockets := [7] } : ComponentPeerState).nof_instances + 1
    ∧ (endConnection { internalEmpty with websockets := [7] } 7).nof_instances
        = ({ internalEmpty with websockets := [7] } : ComponentPeerState).nof_instances - 1 :=
  ⟨(nof_instances_counts { internalEmpty with websockets := [] } 9).1 rfl,
   (nof_instances_counts { internalEmpty with websockets := [7] } 9).2.1,
   (nof_instances_counts { internalEmpty with websockets := [7] } 7).2.2.1 (by decide)⟩

/-! ## Checksum-based asset sync (ComponentPeer.handle_socket,
file_checksums branch) -/

/-- The standard base64 alphabet. -/
def base64Alphabet : List Char :=
  "ABCDEFGHIJKLMNOPQRSTUVWXYZabcdefghijklmnopqrstuvwxyz0123456789+/".toList

def b64c (n : Nat) : Char := base64Alphabet.getD n 'A'

/-- Standard base64 of a byte list, with padding, as produced by
base64.b64encode(...).decode("utf-8"). -/
def base64Encode : List Nat → String
  | [] => ""
  | [a] =>
    String.mk [b64c (a / 4), b64c ((a % 4) * 16)] ++ "=="
  | [a, b] =>
    String.mk [b64c (a / 4), b64c ((a % 4) * 16 + b / 16),
               b64c ((b % 16) * 4)] ++ "="
  | a :: b :: c :: rest =>
    String.mk [b64c (a / 4), b64c ((a % 4) * 16 + b / 16),
               b64c ((b % 16) * 4 + c / 64), b64c (c % 64)]
    ++ base64Encode rest

/-- The per-asset outcome of the file_checksums handler: an already
up-to-date diagnostic, a file command carrying base64 content, or the
no-data skip diagnostic. -/
inductive SyncMsg where
  | upToDate (path : String)
  | file (path : String) (data : String)
  | skipNoData (path : String)
deriving DecidableEq

/-- Python truthiness of the Optional[bytes] data field: None and empty
bytes are both falsy. -/
def dataTruthy : Option (List Nat) → Bool
  | none => false
  | some d => !d.isEmpty

/-- The file_checksums branch of ComponentPeer.handle_socket: for each
held asset in order, compare the reported checksum for its path with the
held checksum and transmit, report up to date, or skip. -/
def syncAssets (assets : List Asset) (files : List (String × String)) :
    List SyncMsg :=
  assets.map (fun asset =>
    if dataTruthy asset.data
        && decide (alistLookup files asset.path = asset.checksum) then
      SyncMsg.upToDate asset.path
    else if dataTruthy asset.data then
      SyncMsg.file asset.path (base64Encode (asset.data.getD []))
    else
      SyncMsg.skipNoData asset.path)

/-- An asset whose preloaded data is the empty byte string. -/
def emptyAsset : Asset :=
  { path := "e.bin", data := some [],
    checksum := some "d41d8cd98f00b204e9800998ecf8427e", targets := [] }

/-- C5 counterexample: an asset with preloaded (but empty) data whose
checksum the peer did not report is skipped with the no-data diagnostic
instead of being transmitted, because Python truthiness treats empty
bytes as no data; this refutes the claimed iff. -/
theorem checksum_sync_counterexample :
    emptyAsset.data = some []
    ∧ alistLookup ([] : List (String × String)) emptyAsset.path = none
    ∧ syncAssets [emptyAsset] [] = [SyncMsg.skipNoData "e.bin"] :=
  ⟨rfl, rfl, rfl⟩

/-- C5 amended: for every held asset, a file message with the base64
content is sent iff the asset has nonempty preloaded data and the
reported checksum for its path is absent or different; an equal reported
checksum yields the up-to-date diagnostic (never a transmission), and an
asset with no (or empty) preloaded data is skipped with a diagnostic. -/
theorem checksum_sync (assets : List Asset) (files : List (String × String))
    (i : Nat) (asset : Asset) (hasset : assets.get? i = some asset) :
    (∀ d c, asset.data = some d → d ≠ [] → asset.checksum = some c →
      ((syncAssets assets files).get? i
          = some (SyncMsg.file asset.path (base64Encode d))
        ↔ alistLookup files asset.path ≠ some c))
    ∧ (∀ d c, asset.data = some d → d ≠ [] → asset.checksum = some c →
        alistLookup files asset.path = some c →
        (syncAssets assets files).get? i = some (SyncMsg.upToDate asset.path))
    ∧ (asset.data = none →
        (syncAssets assets files).get? i
          = some (SyncMsg.skipNoData asset.path)) := by
  rw [List.get?_eq_getElem?] at hasset
  have hmap : (syncAssets assets files).get? i
      = some (if dataTruthy asset.data
            && decide (alistLookup files asset.path = asset.checksum) then
          SyncMsg.upToDate asset.path
        else if dataTruthy asset.data then
          SyncMsg.file asset.path (base64Encode (asset.data.getD []))
        else SyncMsg.skipNoData asset.path) := by
    rw [List.get?_eq_getElem?, syncAssets, List.getElem?_map, hasset]
    rfl
  refine ⟨?_, ?_, ?_⟩
  · intro d c hd hne hc
    have htruthy : dataTruthy asset.data = true := by
      rw [hd]
      simpa [dataTruthy] using hne
    constructor
    · intro hfile hlook
      rw [hmap, htruthy, hc, hlook] at hfile
      simp at hfile
    · intro hlook
      have hdec : decide (alistLookup files asset.path = asset.checksum)
          = false := by
        rw [hc]
        simpa using hlook
      rw [hmap, htruthy, hdec, hd]
      simp
  · intro d c hd hne hc hlook
    have htruthy : dataTruthy asset.data = true := by
      rw [hd]
      simpa [dataTruthy] using hne
    have hdec : decide (alistLookup files asset.path = asset.checksum)
        = true := by
      rw [hc, hlook]
      simp
    rw [hmap, htruthy, hdec]
    simp
  · intro hd
    have htruthy : dataTruthy asset.data = false := by rw [hd]; rfl
    rw [hmap, htruthy]
    simp

def fullAsset : Asset :=
  { path := "a.wav", data := some [1, 2, 3], checksum := some "abc",
    targets := ["audio"] }

/-- C5 witness: a concrete asset with real data is transmitted when the
peer reports nothing, is withheld when the reported checksum matches,
and a data-less asset is skipped. -/
theorem checksum_sync_witness :
    ((syncAssets [fullAsset] []).get? 0
        = some (SyncMsg.file fullAsset.path (base64Encode [1, 2, 3]))
      ↔ alistLookup ([] : List (String × String)) fullAsset.path ≠ some "abc")
    ∧ (syncAssets [fullAsset] [("a.wav", "abc")]).get? 0
        = some (SyncMsg.upToDate fullAsset.path)
    ∧ (syncAssets [{ fullAsset with data := none, checksum := none }]
        []).get? 0 = some (SyncMsg.skipNoData fullAsset.path) :=
  ⟨(checksum_sync [fullAsset] [] 0 fullAsset rfl).1 [1, 2, 3] "abc"
      rfl (by decide) rfl,
   (checksum_sync [fullAsset] [("a.wav", "abc")] 0 fullAsset rfl).2.1
      [1, 2, 3] "abc" rfl (by decide) rfl rfl,
   (checksum_sync [{ fullAsset with data := none, checksum := none }] [] 0
      { fullAsset with data := none, checksum := none } rfl).2.2 rfl⟩

/-! ## Parametrized template substitution (load_actions, src/opus.py) -/

/-- The YAML/JSON values making up a raw action list. -/
inductive Json where
  | str (s : String)
  | num (n : Int)
  | boolean (b : Bool)
  | null
  | arr (items : List Json)
  | obj (fields : List (String × Json))

/-- One step of a structured path: an object child or an array index.
The jsonpath_ng expressions used by change orders are chains of such
steps, each locating at most one value. -/
inductive PathStep where
  | field (name : String)
  | index (i : Nat)
deriving DecidableEq

/-- jsonpath find on a step chain: the located value, if any. -/
def findPath : Json → List PathStep → Option Json
  | j, [] => some j
  | Json.obj fields, PathStep.field name :: rest =>
    (match alistLookup fields name with
     | some v => findPath v rest
     | none => none)
  | Json.arr items, PathStep.index i :: rest =>
    (match items.get? i with
     | some v => findPath v rest
     | none => none)
  | _, _ => none

/-- Replace the value at one list position, leaving the rest alone. -/
def updateNth (items : List Json) (i : Nat) (f : Json → Json) : List Json :=
  match items, i with
  | [], _ => []
  | x :: rest, 0 => f x :: rest
  | x :: rest, n+1 => x :: updateNth rest n f

/-- jsonpath update on a step chain: replaces the located value, leaving
the structure unchanged where the path does not resolve. -/
def updatePath (j : Json) (path : List PathStep) (newVal : Json) : Json :=
  match j, path with
  | _, [] => newVal
  | Json.obj fields, PathStep.field name :: rest =>
    Json.obj (fields.map (fun kv =>
      if kv.1 = name then (kv.1, updatePath kv.2 rest newVal) else kv))
  | Json.arr items, PathStep.index i :: rest =>
    Json.arr (updateNth items i (fun x => updatePath x rest newVal))
  | j2, _ :: _ => j2
termination_by path.length
decreasing_by all_goals simp

/-- A scalar invocation-parameter value. -/
inductive ParamValue where
  | str (s : String)
  | num (n : Int)
  | boolean (b : Bool)
deriving DecidableEq

/-- Python str() of a scalar parameter value. -/
def pyStr : ParamValue → String
  | ParamValue.str s => s
  | ParamValue.num n => toString n
  | ParamValue.boolean b => if b then "True" else "False"

def ParamValue.toJson : ParamValue → Json
  | ParamValue.str s => Json.str s
  | ParamValue.num n => Json.num n
  | ParamValue.boolean b => Json.boolean b

/-- Whether the haystack starts with the pattern. -/
def charsStartsWith : List Char → List Char → Bool
  | _, [] => true
  | [], _ :: _ => false
  | c :: cs, p :: ps => c == p && charsStartsWith cs ps

/-- Python substring containment (the in operator) on character lists. -/
def charsContains : List Char → List Char → Bool
  | [], pat => charsStartsWith [] pat
  | c :: rest, pat =>
    charsStartsWith (c :: rest) pat || charsContains rest pat

/-- Python str.replace: non-overlapping left-to-right replacement of a
nonempty pattern. The fuel starts at the haystack length, which is
sufficient since every step consumes at least one character. -/
def charsReplaceAux (pat rep : List Char) : Nat → List Char → List Char
  | 0, s => s
  | fuel+1, s =>
    match s with
    | [] => []
    | c :: rest =>
      if charsStartsWith (c :: rest) pat && decide (0 < pat.length) then
        rep ++ charsReplaceAux pat rep fuel ((c :: rest).drop pat.length)
      else c :: charsReplaceAux pat rep fuel rest

/-- Python str.replace at the String level. -/
def pyReplace (s pat rep : String) : String :=
  String.mk (charsReplaceAux pat.toList rep.toList s.toList.length s.toList)

/-- The replacement value computed by load_actions for a located value: a
located string containing the literal placeholder token gets in-string
substitution with the stringified parameter value; any other located
value is replaced outright by the parameter value. -/
def newValueFor (origValue : Json) (pname : String) (pval : ParamValue) :
    Json :=
  let parameter_var := "$" ++ pname
  match origValue with
  | Json.str s =>
    if charsContains s.toList parameter_var.toList then
      Json.str (pyReplace s parameter_var (pyStr pval))
    else pval.toJson
  | _ => pval.toJson

/-- One change_order application in load_actions: locate the value at the
path, raise RuntimeError on a miss, read the invocation-supplied value (a
missing invocation parameter raises KeyError, but only after a successful
find, as in the source), and update the located position. -/
def applyChangeOrder (subactions : Json) (pname : String)
    (pvalOpt : Option ParamValue) (path : List PathStep) :
    Except String Json :=
  match findPath subactions path with
  | some origValue =>
    (match pvalOpt with
     | none => Except.error "KeyError: parameter missing from invocation"
     | some pval =>
       Except.ok (updatePath subactions path (newValueFor origValue pname pval)))
  | none => Except.error "Invalid JSON path for parameter"

/-- The change_list loop for one declared parameter. -/
def applyChangeList (subactions : Json) (pname : String)
    (pvalOpt : Option ParamValue) :
    List (List PathStep) → Except String Json
  | [] => Except.ok subactions
  | p :: rest =>
    match applyChangeOrder subactions pname pvalOpt p with
    | Except.ok s2 => applyChangeList s2 pname pvalOpt rest
    | Except.error e => Except.error e

/-- The parameters loop of load_actions for a parametrized invocation,
over the deep-copied template action list. -/
def substituteParameters (subactions : Json)
    (parameters : List (String × List (List PathStep)))
    (args : List (String × ParamValue)) : Except String Json :=
  match parameters with
  | [] => Except.ok subactions
  | (pname, changeList) :: rest =>
    match applyChangeList subactions pname (alistLookup args pname)
        changeList with
    | Except.ok s2 => substituteParameters s2 rest args
    | Except.error e => Except.error e

/-- Updating under a key that was found yields the updated value on the
next lookup. -/
theorem alistLookup_map_update (fields : List (String × Json))
    (name : String) (w : Json) (f : Json → Json)
    (h : alistLookup fields name = some w) :
    alistLookup (fields.map (fun kv =>
      if kv.1 = name then (kv.1, f kv.2) else kv)) name = some (f w) := by
  induction fields with
  | nil => simp [alistLookup] at h
  | cons kv rest ih =>
    obtain ⟨a, b⟩ := kv
    unfold alistLookup at h
    by_cases hk : a = name
    · rw [if_pos hk] at h
      injection h with h
      subst h hk
      have hmap : List.map (fun kv => if kv.1 = a then (kv.1, f kv.2) else kv)
            ((a, b) :: rest)
          = (a, f b) :: List.map
              (fun kv => if kv.1 = a then (kv.1, f kv.2) else kv) rest := by
        simp
      rw [hmap]
      unfold alistLookup
      rw [if_pos rfl]
    · rw [if_neg hk] at h
      simp only [List.map_cons]
      rw [if_neg hk]
      unfold alistLookup
      rw [if_neg hk]
      exact ih h

/-- Updating a list position that exists yields the updated value there. -/
theorem get_updateNth (items : List Json) (i : Nat) (w : Json)
    (f : Json → Json) (h : items[i]? = some w) :
    (updateNth items i f)[i]? = some (f w) := by
  induction items generalizing i with
  | nil => simp at h
  | cons x rest ih =>
    cases i with
    | zero =>
      simp at h
      subst h
      simp [updateNth]
    | succ n =>
      simp at h
      simp [updateNth]
      exact ih n h

/-- The get-put law for jsonpath on step chains: after updating a
located path, finding along the same path returns the new value. -/
theorem findPath_updatePath (path : List PathStep) :
    ∀ (j v w : Json), findPath j path = some w →
      findPath (updatePath j path v) path = some v := by
  induction path with
  | nil =>
    intro j v w _
    cases j <;> simp [updatePath, findPath]
  | cons step rest ih =>
    intro j v w h
    cases step with
    | field name =>
      cases j with
      | obj fields =>
        cases hl : alistLookup fields name with
        | none =>
          unfold findPath at h
          rw [hl] at h
          cases h
        | some u =>
          have h2 : findPath u rest = some w := by
            unfold findPath at h
            rw [hl] at h
            exact h
          have hlm := alistLookup_map_update fields name u
            (fun x => updatePath x rest v) hl
          dsimp only at hlm
          unfold updatePath findPath
          rw [hlm]
          exact ih u v w h2
      | str s => simp [findPath] at h
      | num n => simp [findPath] at h
      | boolean b => simp [findPath] at h
      | null => simp [findPath] at h
      | arr items => simp [findPath] at h
    | index i =>
      cases j with
      | arr items =>
        cases hl : items.get? i with
        | none =>
          unfold findPath at h
          rw [hl] at h
          cases h
        | some u =>
          have h2 : findPath u rest = some w := by
            unfold findPath at h
            rw [hl] at h
            exact h
          have hl2 : items[i]? = some u := by
            rw [← List.get?_eq_getElem?]
            exact hl
          have hg := get_updateNth items i u
            (fun x => updatePath x rest v) hl2
          dsimp only at hg
          unfold updatePath findPath
          rw [List.get?_eq_getElem?, hg]
          exact ih u v w h2
      | str s => simp [findPath] at h
      | num n => simp [findPath] at h
      | boolean b => simp [findPath] at h
      | null => simp [findPath] at h
      | obj fields => simp [findPath] at h

/-- C6: compiling an invocation of a parametrized template applies each
substitution rule: when the path locates a value, the compiled structure
holds, at that path, the parameter value — or, for a located string
containing the placeholder token, that string with the token replaced by
the stringified value; when the path locates nothing, compilation fails
with an error. -/
theorem parametrized_substitution (s : Json) (pname : String)
    (pval : ParamValue) (path : List PathStep) :
    (∀ v, findPath s path = some v →
      substituteParameters s [(pname, [path])] [(pname, pval)]
        = Except.ok (updatePath s path (newValueFor v pname pval))
      ∧ findPath (updatePath s path (newValueFor v pname pval)) path
          = some (newValueFor v pname pval))
    ∧ (findPath s path = none →
      substituteParameters s [(pname, [path])] [(pname, pval)]
        = Except.error "Invalid JSON path for parameter") := by
  constructor
  · intro v hv
    constructor
    · simp [substituteParameters, applyChangeList, applyChangeOrder,
        alistLookup, hv]
    · exact findPath_updatePath path s _ v hv
  · intro hnone
    simp [substituteParameters, applyChangeList, applyChangeOrder,
      alistLookup, hnone]

/-- A one-element template action list with a string placeholder inside
the params object. -/
def c6actions : Json :=
  Json.arr [Json.obj
    [("target", Json.str "internal"), ("cmd", Json.str "print"),
     ("params", Json.obj [("text", Json.str "Hello $n")])]]

def c6path : List PathStep :=
  [PathStep.index 0, PathStep.field "params", PathStep.field "text"]

/-- C6 witness: substituting n=5 into the placeholder string at a
concrete path produces the in-string replacement "Hello 5" at that
path. -/
theorem parametrized_substitution_witness :
    substituteParameters c6actions [("n", [c6path])] [("n", ParamValue.num 5)]
      = Except.ok (updatePath c6actions c6path
          (newValueFor (Json.str "Hello $n") "n" (ParamValue.num 5)))
    ∧ findPath (updatePath c6actions c6path
          (newValueFor (Json.str "Hello $n") "n" (ParamValue.num 5))) c6path
        = some (newValueFor (Json.str "Hello $n") "n" (ParamValue.num 5))
    ∧ newValueFor (Json.str "Hello $n") "n" (ParamValue.num 5)
        = Json.str "Hello 5" :=
  ⟨((parametrized_substitution c6actions "n" (ParamValue.num 5) c6path).1
      (Json.str "Hello $n") rfl).1,
   ((parametrized_substitution c6actions "n" (ParamValue.num 5) c6path).1
      (Json.str "Hello $n") rfl).2,
   rfl⟩

end Screencrash
